import Mathlib

/-!
Verification of the attractor-visualization core (RK4 integration, particle
field, normalization, gesture cooldown) of the `vibe` repository.

Numeric values are modelled over the exact rationals; JavaScript numbers are
IEEE doubles, but every property checked here is an algebraic identity or an
order fact that holds in any linear ordered field, except where a status note
says otherwise.  JavaScript `Math.random()` is modelled as an explicit oracle
argument, and `Math.sin` (used only by the Thomas attractor derivative) as an
explicit function argument.
-/

namespace Vibe

/-- A 3D state vector, the `[number, number, number]` triples of the source. -/
@[ext]
structure Vec3 where
  x : ℚ
  y : ℚ
  z : ℚ
deriving DecidableEq, Repr

/-- Parameters of the Lorenz system (src/lib/attractors.ts). -/
structure LorenzParams where
  sigma : ℚ
  rho : ℚ
  beta : ℚ

/-- Parameters of the Aizawa system. -/
structure AizawaParams where
  a : ℚ
  b : ℚ
  c : ℚ
  d : ℚ
  e : ℚ
  f : ℚ

/-- Parameters of the Thomas system. -/
structure ThomasParams where
  b : ℚ

/-- Parameters of the Halvorsen system. -/
structure HalvorsenParams where
  a : ℚ

/-- Parameters of the Arneodo system. -/
structure ArneodoParams where
  a : ℚ
  b : ℚ
  c : ℚ

/-- An attractor definition: `interface AttractorDef` of src/lib/attractors.ts.
The untyped `params: any` of the source is modelled by letting each definition
carry its own parameter type. -/
structure AttractorDef where
  Params : Type
  name : String
  derive : Vec3 → Params → Vec3
  params : Params
  dt : ℚ
  initial : Vec3

/-- Lorenz derivative (src/lib/attractors.ts lines 17-21). -/
def lorenzDerive : Vec3 → LorenzParams → Vec3 :=
  fun ⟨x, y, z⟩ ⟨sigma, rho, beta⟩ =>
    ⟨sigma * (y - x), x * (rho - z) - y, x * y - beta * z⟩

/-- Aizawa derivative (src/lib/attractors.ts lines 28-32). -/
def aizawaDerive : Vec3 → AizawaParams → Vec3 :=
  fun ⟨x, y, z⟩ ⟨a, b, c, d, e, f⟩ =>
    ⟨(z - b) * x - d * y,
     d * x + (z - b) * y,
     c + a * z - (z ^ 3 / 3) - (x ^ 2 + y ^ 2) * (1 + e * z) + f * z * (x ^ 3)⟩

/-- Thomas derivative (src/lib/attractors.ts lines 39-43); `Math.sin` is passed
in as the function `sinq`. -/
def thomasDerive (sinq : ℚ → ℚ) : Vec3 → ThomasParams → Vec3 :=
  fun ⟨x, y, z⟩ ⟨b⟩ =>
    ⟨sinq y - b * x, sinq z - b * y, sinq x - b * z⟩

/-- Halvorsen derivative (src/lib/attractors.ts lines 50-54). -/
def halvorsenDerive : Vec3 → HalvorsenParams → Vec3 :=
  fun ⟨x, y, z⟩ ⟨a⟩ =>
    ⟨-a * x - 4 * y - 4 * z - y * y,
     -a * y - 4 * z - 4 * x - z * z,
     -a * z - 4 * x - 4 * y - x * x⟩

/-- Arneodo derivative (src/lib/attractors.ts lines 61-65). -/
def arneodoDerive : Vec3 → ArneodoParams → Vec3 :=
  fun ⟨x, y, z⟩ ⟨a, b, c⟩ =>
    ⟨y, z, -a * x - b * y - z + c * (x ^ 3)⟩

/-- The closed enumeration of attractors: `type AttractorKey`. -/
inductive AttractorKey
  | lorenz
  | aizawa
  | thomas
  | halvorsen
  | arneodo
deriving DecidableEq, Repr

/-- The fixed attractor table `ATTRACTORS` of src/lib/attractors.ts,
parameterised by the sine function used by the Thomas entry. -/
def ATTRACTORS (sinq : ℚ → ℚ) : AttractorKey → AttractorDef
  | .lorenz =>
      { Params := LorenzParams, name := "Lorenz", derive := lorenzDerive,
        params := ⟨10, 28, 8 / 3⟩, dt := 1 / 100, initial := ⟨1 / 10, 0, 0⟩ }
  | .aizawa =>
      { Params := AizawaParams, name := "Aizawa", derive := aizawaDerive,
        params := ⟨95 / 100, 7 / 10, 6 / 10, 35 / 10, 25 / 100, 1 / 10⟩,
        dt := 1 / 100, initial := ⟨1 / 10, 0, 0⟩ }
  | .thomas =>
      { Params := ThomasParams, name := "Thomas", derive := thomasDerive sinq,
        params := ⟨2081 / 10000⟩, dt := 1 / 10, initial := ⟨1 / 10, 0, 0⟩ }
  | .halvorsen =>
      { Params := HalvorsenParams, name := "Halvorsen", derive := halvorsenDerive,
        params := ⟨189 / 100⟩, dt := 1 / 100, initial := ⟨1 / 10, 0, 0⟩ }
  | .arneodo =>
      { Params := ArneodoParams, name := "Arneodo", derive := arneodoDerive,
        params := ⟨-6 / 10, 8, -1⟩, dt := 1 / 100, initial := ⟨1 / 10, 1 / 10, 1 / 10⟩ }

/-- The declaration order of the table keys, `Object.keys(ATTRACTORS)`. -/
def attractorKeys : List AttractorKey :=
  [.lorenz, .aizawa, .thomas, .halvorsen, .arneodo]

/-- Componentwise vector addition, helper `add` of src/lib/attractors.ts. -/
def add (a b : Vec3) : Vec3 := ⟨a.x + b.x, a.y + b.y, a.z + b.z⟩

/-- Scalar multiplication, helper `mul` of src/lib/attractors.ts. -/
def mul (a : Vec3) (s : ℚ) : Vec3 := ⟨a.x * s, a.y * s, a.z * s⟩

/-- The RK4 step `rk4` of src/lib/attractors.ts (lines 137-149). -/
def rk4 {P : Type} (p : Vec3) (f : Vec3 → P → Vec3) (params : P) (dt : ℚ) : Vec3 :=
  let k1 := f p params
  let k2 := f (add p (mul k1 (1 / 2 * dt))) params
  let k3 := f (add p (mul k2 (1 / 2 * dt))) params
  let k4 := f (add p (mul k3 dt)) params
  add p (mul (add (add k1 (mul k2 2)) (add (mul k3 2) k4)) (dt / 6))

/-- The RK4 step `rk4Step` of src/components/AttractorCanvas.tsx
(lines 175-188); the source writes `* 0.5`, modelled as `* (1 / 2)`. -/
def rk4Step (p : Vec3) (att : AttractorDef) : Vec3 :=
  let f := att.derive
  let pr := att.params
  let dt := att.dt
  let k1 := f p pr
  let k2 := f ⟨p.x + k1.x * dt * (1 / 2), p.y + k1.y * dt * (1 / 2), p.z + k1.z * dt * (1 / 2)⟩ pr
  let k3 := f ⟨p.x + k2.x * dt * (1 / 2), p.y + k2.y * dt * (1 / 2), p.z + k2.z * dt * (1 / 2)⟩ pr
  let k4 := f ⟨p.x + k3.x * dt, p.y + k3.y * dt, p.z + k3.z * dt⟩ pr
  ⟨p.x + (k1.x + 2 * k2.x + 2 * k3.x + k4.x) * dt / 6,
   p.y + (k1.y + 2 * k2.y + 2 * k3.y + k4.y) * dt / 6,
   p.z + (k1.z + 2 * k2.z + 2 * k3.z + k4.z) * dt / 6⟩

/-- Follows the wording of the specification, section 4.2: the classical
4th-order Runge-Kutta update
`next = state + (k1 + 2*k2 + 2*k3 + k4) * dt/6` with
`k1 = f(state)`, `k2 = f(state + k1*dt/2)`, `k3 = f(state + k2*dt/2)`,
`k4 = f(state + k3*dt)`.  Stated independently of the source helpers so that
the source integrators can be compared against it. -/
def rk4SpecFormula (f : Vec3 → Vec3) (dt : ℚ) (p : Vec3) : Vec3 :=
  let k1 := f p
  let k2 := f ⟨p.x + k1.x * dt / 2, p.y + k1.y * dt / 2, p.z + k1.z * dt / 2⟩
  let k3 := f ⟨p.x + k2.x * dt / 2, p.y + k2.y * dt / 2, p.z + k2.z * dt / 2⟩
  let k4 := f ⟨p.x + k3.x * dt, p.y + k3.y * dt, p.z + k3.z * dt⟩
  ⟨p.x + (k1.x + 2 * k2.x + 2 * k3.x + k4.x) * dt / 6,
   p.y + (k1.y + 2 * k2.y + 2 * k3.y + k4.y) * dt / 6,
   p.z + (k1.z + 2 * k2.z + 2 * k3.z + k4.z) * dt / 6⟩

/-- Number of live particles (AttractorCanvas.tsx line 52). -/
def PARTICLE_COUNT : ℕ := 3000

/-- Trail length: each particle is a trail of N sub-points (line 53). -/
def TRAIL_LENGTH : ℕ := 10

/-- Total rendered vertices (line 54). -/
def TOTAL_POINTS : ℕ := PARTICLE_COUNT * TRAIL_LENGTH

/-- The live particle system state `interface ParticleState` of
AttractorCanvas.tsx.  The source keeps flat `Float32Array` buffers; `positions`
(indexed there by `(i * TRAIL_LENGTH + t) * 3`) is modelled as a curried
function of the particle index `i` and the trail offset `t`, the per-vertex
buffers as functions of the flat vertex index, and `heads` as a function of the
particle index. -/
structure ParticleState where
  positions : ℕ → ℕ → Vec3
  colors : ℕ → Vec3
  alphas : ℕ → ℚ
  sizes : ℕ → ℚ
  heads : ℕ → Vec3
  key : AttractorKey
  normCenter : Vec3
  normScale : ℚ

/-- The descending trail-shift loop of `stepParticles` (AttractorCanvas.tsx
lines 146-152): `for (let t = TRAIL_LENGTH - 1; t > 0; t--) positions[t] =
positions[t-1]`, as a sequence of single-slot updates executed from the
largest index downward.  `shiftDown a n` runs the iterations `t = n, ..., 1`. -/
def shiftDown (a : ℕ → Vec3) : ℕ → (ℕ → Vec3)
  | 0 => a
  | n + 1 => shiftDown (Function.update a (n + 1) (a n)) n

/-- The fixed normalization transform `(raw - normCenter) / normScale`
applied when writing a head into the render buffer (lines 167-170). -/
def normalize (c : Vec3) (s : ℚ) (p : Vec3) : Vec3 :=
  ⟨(p.x - c.x) / s, (p.y - c.y) / s, (p.z - c.z) / s⟩

/-- Head advance with the divergence guard of `stepParticles` (lines 154-163):
integrate one RK4 step; if the first coordinate of the result is invalid
(`isNaN(next[0]) || Math.abs(next[0]) > 1e4` — the source inspects only
`next[0]`), reseed to the attractor initial state plus jitter
`(Math.random() - 0.5) * 0.1` per coordinate.  The three `Math.random()` draws
are the components of the oracle argument `r`; `NaN` has no rational
counterpart, so the model keeps the magnitude guard. -/
def nextHead (att : AttractorDef) (h : Vec3) (r : Vec3) : Vec3 :=
  let next := rk4Step h att
  if 10000 < |next.x| then
    ⟨att.initial.x + (r.x - 1 / 2) * (1 / 10),
     att.initial.y + (r.y - 1 / 2) * (1 / 10),
     att.initial.z + (r.z - 1 / 2) * (1 / 10)⟩
  else next

/-- One call of `stepParticles` (AttractorCanvas.tsx lines 140-172).  The
source loops over particles mutating disjoint slices of the flat buffers; each
particle trail is first shifted one slot toward the tail, then the freshly
integrated (and possibly reseeded) head is stored and its normalized image
written into trail offset 0.  `rand i` supplies the `Math.random()` draws a
reseed of particle `i` would consume; `sinq` is the sine function for the
attractor table lookup `ATTRACTORS[state.key]`. -/
def stepParticles (s : ParticleState) (sinq : ℚ → ℚ) (rand : ℕ → Vec3) : ParticleState :=
  let att := ATTRACTORS sinq s.key
  { s with
    positions := fun i =>
      Function.update (shiftDown (s.positions i) (TRAIL_LENGTH - 1)) 0
        (normalize s.normCenter s.normScale (nextHead att (s.heads i) (rand i))),
    heads := fun i => nextHead att (s.heads i) (rand i) }

/-- The bounding-box fold of `initParticles` (AttractorCanvas.tsx lines
86-92).  The source initialises the running minima and maxima to `±Infinity`
and folds `Math.min`/`Math.max` over the reference points; on a non-empty
sample `p0 :: rest` this equals folding from the first point, which is how the
model states it (rationals have no infinities).  `bboxStep` is the loop body
(one reference point folded into the running minima and maxima). -/
def bboxStep (mm : Vec3 × Vec3) (rp : Vec3) : Vec3 × Vec3 :=
  (⟨min mm.1.x rp.x, min mm.1.y rp.y, min mm.1.z rp.z⟩,
   ⟨max mm.2.x rp.x, max mm.2.y rp.y, max mm.2.z rp.z⟩)

/-- Running minima and maxima over the whole reference sample `p0 :: rest`. -/
def bboxFold (p0 : Vec3) (rest : List Vec3) : Vec3 × Vec3 :=
  rest.foldl bboxStep (p0, p0)

/-- Computation of `normCenter` in `initParticles` (line 93): the per-axis box midpoint. -/
def normCenterOf (p0 : Vec3) (rest : List Vec3) : Vec3 :=
  ⟨((bboxFold p0 rest).1.x + (bboxFold p0 rest).2.x) / 2,
   ((bboxFold p0 rest).1.y + (bboxFold p0 rest).2.y) / 2,
   ((bboxFold p0 rest).1.z + (bboxFold p0 rest).2.z) / 2⟩

/-- Computation of `normScale` in `initParticles` (line 94):
`Math.max(maxX - minX, maxY - minY, maxZ - minZ) || 1`.  The JS `|| 1`
replaces a falsy (that is, zero) extent by 1. -/
def normScaleOf (p0 : Vec3) (rest : List Vec3) : ℚ :=
  let e := max (max ((bboxFold p0 rest).2.x - (bboxFold p0 rest).1.x)
                    ((bboxFold p0 rest).2.y - (bboxFold p0 rest).1.y))
               ((bboxFold p0 rest).2.z - (bboxFold p0 rest).1.z)
  if e = 0 then 1 else e

/-- The selection-cycling callback `cycleAttractor` of AttractorApp.tsx
(lines 17-19): `prev => (prev + 1) % Object.keys(ATTRACTORS).length`. -/
def cycleAttractor (i : ℕ) : ℕ := (i + 1) % attractorKeys.length

/-- Fist-detection tracker state of `useHandTracking` (part_003):
`wasFistRef` (initially `false`) and `lastFistRef` (initially `0`). -/
structure FistState where
  wasFist : Bool
  lastFist : ℕ

/-- One frame of the detection loop as seen by the fist logic: whether a hand
was detected, whether the pose classified as a fist, and the `Date.now()`
timestamp in milliseconds. -/
structure Frame where
  hand : Bool
  fist : Bool
  time : ℕ

/-- The fist branch of the detection loop (part_003 lines 123-132), returning
the updated tracker state and whether `onFist` was invoked.  When the hand is
present and the pose is a fist, the callback fires only if the previous
evaluated frame was not a fist and more than 800 ms have elapsed since the
last firing; a no-hand frame leaves the tracker state untouched. -/
def fistFrame (s : FistState) (fr : Frame) : FistState × Bool :=
  if fr.hand then
    if fr.fist then
      if s.wasFist = false ∧ 800 < fr.time - s.lastFist then (⟨true, fr.time⟩, true)
      else (⟨true, s.lastFist⟩, false)
    else (⟨false, s.lastFist⟩, false)
  else (s, false)

/-- Timestamps at which the detection loop invokes the cycle callback over a
run of frames. -/
def runFires (s : FistState) : List Frame → List ℕ
  | [] => []
  | fr :: rest =>
    if (fistFrame s fr).2 then fr.time :: runFires (fistFrame s fr).1 rest
    else runFires (fistFrame s fr).1 rest

/-- Per-frame firing flags of the detection loop over a run of frames. -/
def runFlags (s : FistState) : List Frame → List Bool
  | [] => []
  | fr :: rest => (fistFrame s fr).2 :: runFlags (fistFrame s fr).1 rest

/-- The initial tracker state of `useHandTracking`. -/
def fistInit : FistState := ⟨false, 0⟩

/-- Default frame used for out-of-range list lookups in statements. -/
def noFrame : Frame := ⟨false, false, 0⟩

/-- Absent-hand scale relaxation of the `animate` loop (AttractorCanvas.tsx
line 410): `curScale += (1.0 - curScale) * 0.03`. -/
def relaxScale (s : ℚ) : ℚ := s + (1 - s) * (3 / 100)

/-- Absent-hand rotational-bias decay (lines 412-413): `bias *= 0.95`. -/
def decayBias (b : ℚ) : ℚ := b * (95 / 100)

/-- Concrete sine oracle used to instantiate closed statements. -/
def sinq0 : ℚ → ℚ := fun _ => 0

/-- Concrete random oracle with all draws at `1/2` (zero jitter). -/
def randHalf : ℕ → Vec3 := fun _ => ⟨1 / 2, 1 / 2, 1 / 2⟩

/-- Concrete random oracle with all draws at `0`. -/
def randZero : ℕ → Vec3 := fun _ => ⟨0, 0, 0⟩

/-- Concrete particle state whose every head is `(0, 0, 10^6)` on the Lorenz
attractor: the RK4-advanced head keeps `x = y = 0` while `z` stays far above
the divergence threshold, so the `next[0]`-only guard does not reseed it. -/
def cexState : ParticleState :=
  { positions := fun _ _ => ⟨0, 0, 0⟩
    colors := fun _ => ⟨0, 0, 0⟩
    alphas := fun _ => 0
    sizes := fun _ => 0
    heads := fun _ => ⟨0, 0, 1000000⟩
    key := .lorenz
    normCenter := ⟨0, 0, 0⟩
    normScale := 1 }

/-- Concrete particle state whose every head is `(10^6, 0, 0)` on the Lorenz
attractor: the RK4-advanced head has `|x| > 10^4`, so the guard reseeds it. -/
def witState : ParticleState :=
  { positions := fun _ _ => ⟨0, 0, 0⟩
    colors := fun _ => ⟨0, 0, 0⟩
    alphas := fun _ => 0
    sizes := fun _ => 0
    heads := fun _ => ⟨1000000, 0, 0⟩
    key := .lorenz
    normCenter := ⟨0, 0, 0⟩
    normScale := 1 }

/-- Concrete particle state with all buffers zeroed and finite heads, used to
instantiate closed statements about the trail shift. -/
def plainState : ParticleState :=
  { positions := fun i t => ⟨(i : ℚ), (t : ℚ), (i : ℚ) + (t : ℚ)⟩
    colors := fun _ => ⟨0, 0, 0⟩
    alphas := fun _ => 0
    sizes := fun _ => 0
    heads := fun _ => ⟨1 / 10, 0, 0⟩
    key := .lorenz
    normCenter := ⟨0, 0, 0⟩
    normScale := 1 }

/-- The RK4-advanced image of the diverged-in-z head of `cexState`. -/
def cexNext : Vec3 := rk4Step (cexState.heads 0) (ATTRACTORS sinq0 .lorenz)

/-- Concrete two-frame run: an open hand at 100 ms, then a fist at 1000 ms. -/
def wframes : List Frame := [⟨true, false, 100⟩, ⟨true, true, 1000⟩]

end Vibe

namespace Vibe

/-- Claim C1: both RK4 integrators of the repository (`rk4Step` in
AttractorCanvas.tsx and `rk4` in attractors.ts) return, for every state,
derivative function, parameter value and step size, exactly the classical
4th-order Runge-Kutta update
`state + (k1 + 2*k2 + 2*k3 + k4) * dt/6` with the standard stage values. -/
theorem rk4_matches_classical_formula :
    (∀ (att : AttractorDef) (p : Vec3),
      rk4Step p att = rk4SpecFormula (fun q => att.derive q att.params) att.dt p) ∧
    (∀ (P : Type) (f : Vec3 → P → Vec3) (params : P) (dt : ℚ) (p : Vec3),
      rk4 p f params dt = rk4SpecFormula (fun q => f q params) dt p) := by
  constructor
  · intro att p
    show rk4Step p att = rk4SpecFormula (fun q => att.derive q att.params) att.dt p
    unfold rk4Step rk4SpecFormula
    have harg : ∀ (k : Vec3),
        (⟨p.x + k.x * att.dt * (1 / 2), p.y + k.y * att.dt * (1 / 2),
          p.z + k.z * att.dt * (1 / 2)⟩ : Vec3) =
        ⟨p.x + k.x * att.dt / 2, p.y + k.y * att.dt / 2, p.z + k.z * att.dt / 2⟩ := by
      intro k
      refine Vec3.ext ?_ ?_ ?_ <;> · show _ = _; ring
    simp only [harg]
  · intro P f params dt p
    unfold rk4 rk4SpecFormula add mul
    have harg : ∀ (k : Vec3),
        (⟨p.x + k.x * (1 / 2 * dt), p.y + k.y * (1 / 2 * dt),
          p.z + k.z * (1 / 2 * dt)⟩ : Vec3) =
        ⟨p.x + k.x * dt / 2, p.y + k.y * dt / 2, p.z + k.z * dt / 2⟩ := by
      intro k
      refine Vec3.ext ?_ ?_ ?_ <;> · show _ = _; ring
    simp only [harg]
    refine Vec3.ext ?_ ?_ ?_ <;> · show _ = _; ring

end Vibe

namespace Vibe

theorem shiftDown_apply (n : ℕ) : ∀ (a : ℕ → Vec3) (t : ℕ),
    shiftDown a n t = if 1 ≤ t ∧ t ≤ n then a (t - 1) else a t := by
  induction n with
  | zero =>
    intro a t
    show a t = _
    rw [if_neg (by omega)]
  | succ n ih =>
    intro a t
    rw [shiftDown, ih]
    by_cases h1 : 1 ≤ t ∧ t ≤ n
    · rw [if_pos h1, if_pos ⟨h1.1, by omega⟩, Function.update_noteq (by omega)]
    · by_cases h2 : t = n + 1
      · subst h2
        rw [if_neg h1, Function.update_same, if_pos ⟨by omega, le_refl _⟩]
        exact congrArg a (by omega)
      · rw [if_neg h1, Function.update_noteq h2, if_neg (by omega)]

theorem relaxScale_iterate (s : ℚ) (n : ℕ) :
    relaxScale^[n] s - 1 = (97 / 100) ^ n * (s - 1) := by
  induction n with
  | zero => simp
  | succ n ih =>
    rw [Function.iterate_succ_apply', pow_succ]
    have h : relaxScale (relaxScale^[n] s) - 1 = (97 / 100) * (relaxScale^[n] s - 1) := by
      unfold relaxScale; ring
    rw [h, ih]; ring

theorem decayBias_iterate (b : ℚ) (n : ℕ) : decayBias^[n] b = (19 / 20) ^ n * b := by
  induction n with
  | zero => simp
  | succ n ih => rw [Function.iterate_succ_apply', decayBias, ih, pow_succ]; ring

theorem foldl_min_le_init (xs : List ℚ) : ∀ a : ℚ, xs.foldl min a ≤ a := by
  induction xs with
  | nil => intro a; simp
  | cons x xs ih => intro a; exact le_trans (ih (min a x)) (min_le_left a x)

theorem foldl_min_le_mem (xs : List ℚ) : ∀ (a x : ℚ), x ∈ xs → xs.foldl min a ≤ x := by
  induction xs with
  | nil => intro a x hx; cases hx
  | cons y ys ih =>
    intro a x hx
    rcases List.mem_cons.mp hx with h | h
    · subst h
      exact le_trans (foldl_min_le_init ys (min a x)) (min_le_right a x)
    · exact ih (min a y) x h

theorem foldl_min_mem (xs : List ℚ) : ∀ a : ℚ, xs.foldl min a = a ∨ xs.foldl min a ∈ xs := by
  induction xs with
  | nil => intro a; left; rfl
  | cons x xs ih =>
    intro a
    rcases ih (min a x) with h | h
    · rw [List.foldl_cons, h]
      rcases min_cases a x with ⟨h2, _⟩ | ⟨h2, _⟩
      · left; exact h2
      · right; rw [h2]; exact List.mem_cons_self x xs
    · right; exact List.mem_cons_of_mem x h

theorem foldl_max_init_le (xs : List ℚ) : ∀ a : ℚ, a ≤ xs.foldl max a := by
  induction xs with
  | nil => intro a; simp
  | cons x xs ih => intro a; exact le_trans (le_max_left a x) (ih (max a x))

theorem foldl_max_mem_le (xs : List ℚ) : ∀ (a x : ℚ), x ∈ xs → x ≤ xs.foldl max a := by
  induction xs with
  | nil => intro a x hx; cases hx
  | cons y ys ih =>
    intro a x hx
    rcases List.mem_cons.mp hx with h | h
    · subst h
      exact le_trans (le_max_right a x) (foldl_max_init_le ys (max a x))
    · exact ih (max a y) x h

theorem foldl_max_mem (xs : List ℚ) : ∀ a : ℚ, xs.foldl max a = a ∨ xs.foldl max a ∈ xs := by
  induction xs with
  | nil => intro a; left; rfl
  | cons x xs ih =>
    intro a
    rcases ih (max a x) with h | h
    · rw [List.foldl_cons, h]
      rcases max_cases a x with ⟨h2, _⟩ | ⟨h2, _⟩
      · left; exact h2
      · right; rw [h2]; exact List.mem_cons_self x xs
    · right; exact List.mem_cons_of_mem x h

theorem bboxFoldl_proj (rest : List Vec3) : ∀ mm : Vec3 × Vec3,
    (rest.foldl bboxStep mm).1.x = (rest.map Vec3.x).foldl min mm.1.x ∧
    (rest.foldl bboxStep mm).1.y = (rest.map Vec3.y).foldl min mm.1.y ∧
    (rest.foldl bboxStep mm).1.z = (rest.map Vec3.z).foldl min mm.1.z ∧
    (rest.foldl bboxStep mm).2.x = (rest.map Vec3.x).foldl max mm.2.x ∧
    (rest.foldl bboxStep mm).2.y = (rest.map Vec3.y).foldl max mm.2.y ∧
    (rest.foldl bboxStep mm).2.z = (rest.map Vec3.z).foldl max mm.2.z := by
  induction rest with
  | nil => intro mm; exact ⟨rfl, rfl, rfl, rfl, rfl, rfl⟩
  | cons p ps ih =>
    intro mm
    simpa [bboxStep] using ih (bboxStep mm p)

theorem bboxFold_min_x (p0 : Vec3) (rest : List Vec3) :
    (bboxFold p0 rest).1.x = (rest.map Vec3.x).foldl min p0.x := by
  simpa [bboxFold] using (bboxFoldl_proj rest (p0, p0)).1

theorem bboxFold_min_y (p0 : Vec3) (rest : List Vec3) :
    (bboxFold p0 rest).1.y = (rest.map Vec3.y).foldl min p0.y := by
  simpa [bboxFold] using (bboxFoldl_proj rest (p0, p0)).2.1

theorem bboxFold_min_z (p0 : Vec3) (rest : List Vec3) :
    (bboxFold p0 rest).1.z = (rest.map Vec3.z).foldl min p0.z := by
  simpa [bboxFold] using (bboxFoldl_proj rest (p0, p0)).2.2.1

theorem bboxFold_max_x (p0 : Vec3) (rest : List Vec3) :
    (bboxFold p0 rest).2.x = (rest.map Vec3.x).foldl max p0.x := by
  simpa [bboxFold] using (bboxFoldl_proj rest (p0, p0)).2.2.2.1

theorem bboxFold_max_y (p0 : Vec3) (rest : List Vec3) :
    (bboxFold p0 rest).2.y = (rest.map Vec3.y).foldl max p0.y := by
  simpa [bboxFold] using (bboxFoldl_proj rest (p0, p0)).2.2.2.2.1

theorem bboxFold_max_z (p0 : Vec3) (rest : List Vec3) :
    (bboxFold p0 rest).2.z = (rest.map Vec3.z).foldl max p0.z := by
  simpa [bboxFold] using (bboxFoldl_proj rest (p0, p0)).2.2.2.2.2

theorem bboxFold_bounds (p0 : Vec3) (rest : List Vec3) :
    ∀ q ∈ p0 :: rest,
      (bboxFold p0 rest).1.x ≤ q.x ∧ (bboxFold p0 rest).1.y ≤ q.y ∧
      (bboxFold p0 rest).1.z ≤ q.z ∧ q.x ≤ (bboxFold p0 rest).2.x ∧
      q.y ≤ (bboxFold p0 rest).2.y ∧ q.z ≤ (bboxFold p0 rest).2.z := by
  intro q hq
  rw [bboxFold_min_x, bboxFold_min_y, bboxFold_min_z,
      bboxFold_max_x, bboxFold_max_y, bboxFold_max_z]
  rcases List.mem_cons.mp hq with h | h
  · subst h
    exact ⟨foldl_min_le_init _ _, foldl_min_le_init _ _, foldl_min_le_init _ _,
           foldl_max_init_le _ _, foldl_max_init_le _ _, foldl_max_init_le _ _⟩
  · exact ⟨foldl_min_le_mem _ _ _ (List.mem_map_of_mem Vec3.x h),
           foldl_min_le_mem _ _ _ (List.mem_map_of_mem Vec3.y h),
           foldl_min_le_mem _ _ _ (List.mem_map_of_mem Vec3.z h),
           foldl_max_mem_le _ _ _ (List.mem_map_of_mem Vec3.x h),
           foldl_max_mem_le _ _ _ (List.mem_map_of_mem Vec3.y h),
           foldl_max_mem_le _ _ _ (List.mem_map_of_mem Vec3.z h)⟩

theorem bboxFold_attained (p0 : Vec3) (rest : List Vec3) :
    (∃ q ∈ p0 :: rest, q.x = (bboxFold p0 rest).1.x) ∧
    (∃ q ∈ p0 :: rest, q.y = (bboxFold p0 rest).1.y) ∧
    (∃ q ∈ p0 :: rest, q.z = (bboxFold p0 rest).1.z) ∧
    (∃ q ∈ p0 :: rest, q.x = (bboxFold p0 rest).2.x) ∧
    (∃ q ∈ p0 :: rest, q.y = (bboxFold p0 rest).2.y) ∧
    (∃ q ∈ p0 :: rest, q.z = (bboxFold p0 rest).2.z) := by
  refine ⟨?_, ?_, ?_, ?_, ?_, ?_⟩
  · rw [bboxFold_min_x]
    rcases foldl_min_mem (rest.map Vec3.x) p0.x with h | h
    · exact ⟨p0, List.mem_cons_self _ _, h.symm⟩
    · obtain ⟨q, hq, hqx⟩ := List.mem_map.mp h
      exact ⟨q, List.mem_cons_of_mem _ hq, hqx⟩
  · rw [bboxFold_min_y]
    rcases foldl_min_mem (rest.map Vec3.y) p0.y with h | h
    · exact ⟨p0, List.mem_cons_self _ _, h.symm⟩
    · obtain ⟨q, hq, hqx⟩ := List.mem_map.mp h
      exact ⟨q, List.mem_cons_of_mem _ hq, hqx⟩
  · rw [bboxFold_min_z]
    rcases foldl_min_mem (rest.map Vec3.z) p0.z with h | h
    · exact ⟨p0, List.mem_cons_self _ _, h.symm⟩
    · obtain ⟨q, hq, hqx⟩ := List.mem_map.mp h
      exact ⟨q, List.mem_cons_of_mem _ hq, hqx⟩
  · rw [bboxFold_max_x]
    rcases foldl_max_mem (rest.map Vec3.x) p0.x with h | h
    · exact ⟨p0, List.mem_cons_self _ _, h.symm⟩
    · obtain ⟨q, hq, hqx⟩ := List.mem_map.mp h
      exact ⟨q, List.mem_cons_of_mem _ hq, hqx⟩
  · rw [bboxFold_max_y]
    rcases foldl_max_mem (rest.map Vec3.y) p0.y with h | h
    · exact ⟨p0, List.mem_cons_self _ _, h.symm⟩
    · obtain ⟨q, hq, hqx⟩ := List.mem_map.mp h
      exact ⟨q, List.mem_cons_of_mem _ hq, hqx⟩
  · rw [bboxFold_max_z]
    rcases foldl_max_mem (rest.map Vec3.z) p0.z with h | h
    · exact ⟨p0, List.mem_cons_self _ _, h.symm⟩
    · obtain ⟨q, hq, hqx⟩ := List.mem_map.mp h
      exact ⟨q, List.mem_cons_of_mem _ hq, hqx⟩

end Vibe

namespace Vibe

theorem fistFrame_fire_spec (s : FistState) (fr : Frame) :
    ((fistFrame s fr).2 = true →
      (fistFrame s fr).1.lastFist = fr.time ∧ 800 < fr.time - s.lastFist) ∧
    ((fistFrame s fr).2 = false → (fistFrame s fr).1.lastFist = s.lastFist) := by
  unfold fistFrame
  split_ifs with h1 h2 h3
  · exact ⟨fun _ => ⟨rfl, h3.2⟩, fun h => (by cases h)⟩
  · exact ⟨fun h => (by cases h), fun _ => rfl⟩
  · exact ⟨fun h => (by cases h), fun _ => rfl⟩
  · exact ⟨fun h => (by cases h), fun _ => rfl⟩

theorem fistFrame_wasFist_true (s : FistState) (fr : Frame)
    (h1 : fr.hand = true) (h2 : fr.fist = true) :
    (fistFrame s fr).1.wasFist = true := by
  unfold fistFrame
  rw [if_pos h1, if_pos h2]
  split_ifs <;> rfl

theorem fistFrame_closed_no_fire (s : FistState) (fr : Frame)
    (h : s.wasFist = true) : (fistFrame s fr).2 = false := by
  unfold fistFrame
  split_ifs with h1 h2 h3
  · rw [h] at h3; exact absurd h3.1 (by simp)
  · rfl
  · rfl
  · rfl

theorem runFires_gap (frames : List Frame) : ∀ s : FistState,
    (∀ t ∈ runFires s frames, 800 < t - s.lastFist) ∧
    (runFires s frames).Pairwise (fun a b => 800 < b - a) := by
  induction frames with
  | nil =>
    intro s
    refine ⟨?_, ?_⟩
    · intro t ht
      simp [runFires] at ht
    · simp [runFires]
  | cons fr rest ih =>
    intro s
    rcases hB : (fistFrame s fr).2 with _ | _
    · have hlast := (fistFrame_fire_spec s fr).2 hB
      have ihh := ih (fistFrame s fr).1
      rw [hlast] at ihh
      simpa [runFires, hB] using ihh
    · obtain ⟨hlast, hgap⟩ := (fistFrame_fire_spec s fr).1 hB
      have ihh := ih (fistFrame s fr).1
      rw [hlast] at ihh
      have hmono : s.lastFist ≤ fr.time := by omega
      have hfires : runFires s (fr :: rest) = fr.time :: runFires (fistFrame s fr).1 rest := by
        simp [runFires, hB]
      rw [hfires]
      constructor
      · intro t ht
        rcases List.mem_cons.mp ht with h | h
        · subst h; exact hgap
        · have h8 := ihh.1 t h
          omega
      · exact List.Pairwise.cons (fun t ht => ihh.1 t ht) ihh.2

theorem runFlags_open_transition (frames : List Frame) : ∀ (s : FistState) (j : ℕ),
    (runFlags s frames).getD (j + 1) false = true →
    ¬ ((frames.getD j noFrame).hand = true ∧ (frames.getD j noFrame).fist = true) := by
  induction frames with
  | nil =>
    intro s j hfl
    simp [runFlags] at hfl
  | cons fr rest ih =>
    intro s j
    cases j with
    | zero =>
      intro hfl hfr
      have hw : (fistFrame s fr).1.wasFist = true :=
        fistFrame_wasFist_true s fr (by simpa using hfr.1) (by simpa using hfr.2)
      cases rest with
      | nil => simp [runFlags] at hfl
      | cons fr2 rest2 =>
        have hno : (fistFrame (fistFrame s fr).1 fr2).2 = false :=
          fistFrame_closed_no_fire _ fr2 hw
        simp [runFlags, hno] at hfl
    | succ j =>
      intro hfl
      have hfl2 : (runFlags (fistFrame s fr).1 rest).getD (j + 1) false = true := by
        simpa [runFlags] using hfl
      simpa using ih (fistFrame s fr).1 j hfl2

/-- Claim C5: every call of the per-tick advance leaves the per-vertex color,
alpha and size buffers, the attractor key, and the frozen normalization
constants `normCenter`/`normScale` unchanged; only `positions` and `heads`
are rewritten. -/
theorem step_preserves_static_buffers (s : ParticleState) (sinq : ℚ → ℚ) (rand : ℕ → Vec3) :
    (stepParticles s sinq rand).colors = s.colors ∧
    (stepParticles s sinq rand).alphas = s.alphas ∧
    (stepParticles s sinq rand).sizes = s.sizes ∧
    (stepParticles s sinq rand).key = s.key ∧
    (stepParticles s sinq rand).normCenter = s.normCenter ∧
    (stepParticles s sinq rand).normScale = s.normScale :=
  ⟨rfl, rfl, rfl, rfl, rfl, rfl⟩

/-- Claim C6: with the N = 5 attractors of the fixed table, the cycle event
maps selection index `i` to `(i + 1) % N`, and applying it 5 times from
index 0 returns the selection to index 0. -/
theorem cycle_attractor_mod :
    attractorKeys.length = 5 ∧
    (∀ i : ℕ, cycleAttractor i = (i + 1) % 5) ∧
    cycleAttractor^[5] 0 = 0 :=
  ⟨rfl, fun _ => rfl, rfl⟩

/-- Claim C3: after one per-tick advance, for every particle `i` and every
trail offset `0 < t < TRAIL_LENGTH`, the render position at offset `t`
equals the pre-advance render position at offset `t - 1` (FIFO shift, oldest
sub-point discarded), and the offset-0 slot holds the freshly integrated
head transformed by `(raw - normCenter) / normScale`. -/
theorem step_trail_shift (s : ParticleState) (sinq : ℚ → ℚ) (rand : ℕ → Vec3)
    (i t : ℕ) (h0 : 0 < t) (hT : t < TRAIL_LENGTH) :
    (stepParticles s sinq rand).positions i t = s.positions i (t - 1) ∧
    (stepParticles s sinq rand).positions i 0 =
      normalize s.normCenter s.normScale
        (nextHead (ATTRACTORS sinq s.key) (s.heads i) (rand i)) := by
  constructor
  · show Function.update (shiftDown (s.positions i) (TRAIL_LENGTH - 1)) 0 _ t = _
    rw [Function.update_noteq (by omega), shiftDown_apply]
    rw [if_pos ⟨h0, by simp only [TRAIL_LENGTH] at hT ⊢; omega⟩]
  · show Function.update (shiftDown (s.positions i) (TRAIL_LENGTH - 1)) 0
        (normalize s.normCenter s.normScale
          (nextHead (ATTRACTORS sinq s.key) (s.heads i) (rand i))) 0 =
      normalize s.normCenter s.normScale
        (nextHead (ATTRACTORS sinq s.key) (s.heads i) (rand i))
    exact Function.update_same 0 _ _

theorem step_trail_shift_witness :
    (stepParticles plainState sinq0 randHalf).positions 2 5 = plainState.positions 2 4 ∧
    (stepParticles plainState sinq0 randHalf).positions 2 0 =
      normalize plainState.normCenter plainState.normScale
        (nextHead (ATTRACTORS sinq0 plainState.key) (plainState.heads 2) (randHalf 2)) :=
  step_trail_shift plainState sinq0 randHalf 2 5 (by norm_num) (by norm_num [TRAIL_LENGTH])

/-- Claim C8: on absent-hand frames the scale update is
`new = old + (1 - old) * 0.03`, so over any run of `n` absent frames
`scale - 1` scales by exactly `0.97` per frame; hence `|scale - 1|` is
monotonically non-increasing, the scale never crosses 1 (no overshoot or
oscillation), and each rotational bias decays geometrically by the fixed
factor `0.95` per frame. -/
theorem absent_frame_relaxation (s b : ℚ) (n : ℕ) :
    relaxScale^[n] s - 1 = (97 / 100) ^ n * (s - 1) ∧
    |relaxScale^[n + 1] s - 1| ≤ |relaxScale^[n] s - 1| ∧
    (s ≤ 1 → relaxScale^[n] s ≤ 1) ∧
    (1 ≤ s → 1 ≤ relaxScale^[n] s) ∧
    decayBias^[n] b = (19 / 20) ^ n * b := by
  have key := relaxScale_iterate s n
  have key1 := relaxScale_iterate s (n + 1)
  have hpow : (0 : ℚ) ≤ (97 / 100) ^ n := pow_nonneg (by norm_num) n
  refine ⟨key, ?_, ?_, ?_, decayBias_iterate b n⟩
  · have e1 : |relaxScale^[n + 1] s - 1| = (97 / 100) ^ (n + 1) * |s - 1| := by
      rw [key1, abs_mul, abs_of_nonneg (pow_nonneg (by norm_num) (n + 1))]
    have e2 : |relaxScale^[n] s - 1| = (97 / 100) ^ n * |s - 1| := by
      rw [key, abs_mul, abs_of_nonneg hpow]
    rw [e1, e2, pow_succ]
    nlinarith [abs_nonneg (s - 1), mul_nonneg hpow (abs_nonneg (s - 1))]
  · intro hs
    nlinarith [key, mul_nonneg hpow (show (0 : ℚ) ≤ 1 - s by linarith)]
  · intro hs
    nlinarith [key, mul_nonneg hpow (show (0 : ℚ) ≤ s - 1 by linarith)]

theorem absent_frame_relaxation_witness : 1 ≤ relaxScale^[100] (2 : ℚ) :=
  (absent_frame_relaxation 2 0 100).2.2.2.1 (by norm_num)

/-- Claim C7: over any run of detection-loop frames, the cycle callback
never fires twice within one cooldown window — any two firing timestamps
`T` then `T2` satisfy `T2 - T > 800` ms — and a firing additionally requires
an open-to-fist transition: the frame before a firing frame was not
classified as a fist. -/
theorem fist_cooldown (s : FistState) (frames : List Frame) :
    ((runFires s frames).Pairwise (fun a b => 800 < b - a) ∧
      ∀ t ∈ runFires s frames, 800 < t - s.lastFist) ∧
    (∀ j : ℕ, (runFlags s frames).getD (j + 1) false = true →
      ¬ ((frames.getD j noFrame).hand = true ∧ (frames.getD j noFrame).fist = true)) :=
  ⟨⟨(runFires_gap frames s).2, (runFires_gap frames s).1⟩,
   fun j => runFlags_open_transition frames s j⟩

theorem fist_cooldown_witness :
    (runFires fistInit wframes).Pairwise (fun a b => 800 < b - a) ∧
    ¬ ((wframes.getD 0 noFrame).hand = true ∧ (wframes.getD 0 noFrame).fist = true) :=
  ⟨(fist_cooldown fistInit wframes).1.1,
   (fist_cooldown fistInit wframes).2 0 (by decide)⟩

/-- Claim C10: for every (necessarily non-empty) reference sample produced
at field creation, the `normScale` computed by `initParticles` is nonzero —
a degenerate zero extent falls back to 1 — so the normalization division
`(raw - normCenter) / normScale` never divides by zero. -/
theorem normScale_never_zero (p0 : Vec3) (rest : List Vec3) :
    normScaleOf p0 rest ≠ 0 ∧ 0 < normScaleOf p0 rest := by
  have hb := bboxFold_bounds p0 rest p0 (List.mem_cons_self _ _)
  have hex : (0 : ℚ) ≤ (bboxFold p0 rest).2.x - (bboxFold p0 rest).1.x := by
    linarith [hb.1, hb.2.2.2.1]
  have he : (0 : ℚ) ≤ max (max ((bboxFold p0 rest).2.x - (bboxFold p0 rest).1.x)
      ((bboxFold p0 rest).2.y - (bboxFold p0 rest).1.y))
      ((bboxFold p0 rest).2.z - (bboxFold p0 rest).1.z) :=
    le_trans hex (le_trans (le_max_left _ _) (le_max_left _ _))
  have hpos : 0 < normScaleOf p0 rest := by
    simp only [normScaleOf]
    split_ifs with h
    · norm_num
    · exact lt_of_le_of_ne he (Ne.symm h)
  exact ⟨ne_of_gt hpos, hpos⟩

/-- Claim C4: at field creation, for every non-empty reference sample the
fold of `initParticles` computes the axis-aligned bounding box of the sample
(componentwise bounds, attained on the sample), `normCenter` is the per-axis
midpoint `(min + max) / 2` of that box, and `normScale` is the largest of
the three axis extents with fallback 1 when that extent is zero.
Re-deriving the constants from the same sample is deterministic because the
model is a pure function of the sample. -/
theorem init_normalization_bbox (p0 : Vec3) (rest : List Vec3) :
    (∀ q ∈ p0 :: rest,
      (bboxFold p0 rest).1.x ≤ q.x ∧ (bboxFold p0 rest).1.y ≤ q.y ∧
      (bboxFold p0 rest).1.z ≤ q.z ∧ q.x ≤ (bboxFold p0 rest).2.x ∧
      q.y ≤ (bboxFold p0 rest).2.y ∧ q.z ≤ (bboxFold p0 rest).2.z) ∧
    ((∃ q ∈ p0 :: rest, q.x = (bboxFold p0 rest).1.x) ∧
     (∃ q ∈ p0 :: rest, q.y = (bboxFold p0 rest).1.y) ∧
     (∃ q ∈ p0 :: rest, q.z = (bboxFold p0 rest).1.z) ∧
     (∃ q ∈ p0 :: rest, q.x = (bboxFold p0 rest).2.x) ∧
     (∃ q ∈ p0 :: rest, q.y = (bboxFold p0 rest).2.y) ∧
     (∃ q ∈ p0 :: rest, q.z = (bboxFold p0 rest).2.z)) ∧
    normCenterOf p0 rest =
      ⟨((bboxFold p0 rest).1.x + (bboxFold p0 rest).2.x) / 2,
       ((bboxFold p0 rest).1.y + (bboxFold p0 rest).2.y) / 2,
       ((bboxFold p0 rest).1.z + (bboxFold p0 rest).2.z) / 2⟩ ∧
    normScaleOf p0 rest =
      (if max (max ((bboxFold p0 rest).2.x - (bboxFold p0 rest).1.x)
                   ((bboxFold p0 rest).2.y - (bboxFold p0 rest).1.y))
              ((bboxFold p0 rest).2.z - (bboxFold p0 rest).1.z) = 0 then 1
       else max (max ((bboxFold p0 rest).2.x - (bboxFold p0 rest).1.x)
                     ((bboxFold p0 rest).2.y - (bboxFold p0 rest).1.y))
                ((bboxFold p0 rest).2.z - (bboxFold p0 rest).1.z)) :=
  ⟨bboxFold_bounds p0 rest, bboxFold_attained p0 rest, rfl, rfl⟩

theorem init_normalization_bbox_witness :
    (bboxFold ⟨1, 2, 3⟩ [⟨4, 0, 5⟩]).1.x ≤ (⟨4, 0, 5⟩ : Vec3).x ∧
    (bboxFold ⟨1, 2, 3⟩ [⟨4, 0, 5⟩]).1.y ≤ (⟨4, 0, 5⟩ : Vec3).y ∧
    (bboxFold ⟨1, 2, 3⟩ [⟨4, 0, 5⟩]).1.z ≤ (⟨4, 0, 5⟩ : Vec3).z ∧
    (⟨4, 0, 5⟩ : Vec3).x ≤ (bboxFold ⟨1, 2, 3⟩ [⟨4, 0, 5⟩]).2.x ∧
    (⟨4, 0, 5⟩ : Vec3).y ≤ (bboxFold ⟨1, 2, 3⟩ [⟨4, 0, 5⟩]).2.y ∧
    (⟨4, 0, 5⟩ : Vec3).z ≤ (bboxFold ⟨1, 2, 3⟩ [⟨4, 0, 5⟩]).2.z :=
  (init_normalization_bbox ⟨1, 2, 3⟩ [⟨4, 0, 5⟩]).1 ⟨4, 0, 5⟩
    (List.mem_cons_of_mem _ (List.mem_cons_self _ _))

end Vibe

namespace Vibe

theorem cexNext_eval : cexNext = (⟨0, 0, 5915140928 / 6075⟩ : Vec3) := by
  simp only [cexNext, cexState, ATTRACTORS, rk4Step, lorenzDerive]
  norm_num

/-- Claim C2, counterexample: the divergence guard of `stepParticles`
inspects only the first coordinate.  From the Lorenz head `(0, 0, 10^6)`,
the RK4-advanced head has `z` far above the threshold `10^4`, yet the
advance propagates it unchanged into the heads and positions buffers, and
the stored head is not within the reseed jitter radius of the initial
state — refuting the claim as stated for "any coordinate". -/
theorem step_reseed_checks_only_x_cex :
    10000 < |cexNext.z| ∧
    (stepParticles cexState sinq0 randHalf).heads 0 = cexNext ∧
    (stepParticles cexState sinq0 randHalf).positions 0 0 =
      normalize cexState.normCenter cexState.normScale cexNext ∧
    ¬ (|cexNext.x - (ATTRACTORS sinq0 .lorenz).initial.x| ≤ 1 / 10 ∧
       |cexNext.y - (ATTRACTORS sinq0 .lorenz).initial.y| ≤ 1 / 10 ∧
       |cexNext.z - (ATTRACTORS sinq0 .lorenz).initial.z| ≤ 1 / 10) := by
  have hx0 : (rk4Step (cexState.heads 0) (ATTRACTORS sinq0 cexState.key)).x = 0 := by
    simp only [cexState, ATTRACTORS, rk4Step, lorenzDerive]
    norm_num
  have hheads : (stepParticles cexState sinq0 randHalf).heads 0 = cexNext := by
    show nextHead _ _ _ = _
    rw [nextHead, if_neg]
    · rfl
    · rw [hx0]; norm_num
  have hz : cexNext.z - (ATTRACTORS sinq0 .lorenz).initial.z = 5915140928 / 6075 := by
    rw [cexNext_eval]
    simp [ATTRACTORS]
  refine ⟨?_, hheads, ?_, ?_⟩
  · rw [cexNext_eval]
    rw [show ((⟨0, 0, 5915140928 / 6075⟩ : Vec3)).z = (5915140928 / 6075 : ℚ) from rfl,
        abs_of_nonneg (by norm_num)]
    norm_num
  · show Function.update (shiftDown (cexState.positions 0) (TRAIL_LENGTH - 1)) 0
        (normalize cexState.normCenter cexState.normScale
          (nextHead (ATTRACTORS sinq0 cexState.key) (cexState.heads 0) (randHalf 0))) 0 =
      normalize cexState.normCenter cexState.normScale cexNext
    rw [Function.update_same]
    exact congrArg (normalize _ _) hheads
  · intro h
    have h3 := h.2.2
    rw [hz, abs_of_nonneg (by norm_num)] at h3
    norm_num at h3

/-- Claim C2, amended: if the **x** coordinate of the RK4-advanced head
exceeds the divergence magnitude threshold `10^4` (the source checks only
`next[0]`), the per-tick advance writes instead a reseeded state within
jitter `0.05` of the attractor initial state in every coordinate (hence
within the claimed ≈0.1 radius), given `Math.random()` draws in `[0, 1)`,
and the offset-0 render slot receives the normalized reseeded head, never
the diverged value. -/
theorem step_reseed_on_x_divergence (s : ParticleState) (sinq : ℚ → ℚ)
    (rand : ℕ → Vec3) (i : ℕ)
    (hr0 : 0 ≤ (rand i).x ∧ (rand i).x < 1)
    (hr1 : 0 ≤ (rand i).y ∧ (rand i).y < 1)
    (hr2 : 0 ≤ (rand i).z ∧ (rand i).z < 1)
    (hdiv : 10000 < |(rk4Step (s.heads i) (ATTRACTORS sinq s.key)).x|) :
    |((stepParticles s sinq rand).heads i).x - (ATTRACTORS sinq s.key).initial.x| ≤ 1 / 20 ∧
    |((stepParticles s sinq rand).heads i).y - (ATTRACTORS sinq s.key).initial.y| ≤ 1 / 20 ∧
    |((stepParticles s sinq rand).heads i).z - (ATTRACTORS sinq s.key).initial.z| ≤ 1 / 20 ∧
    (stepParticles s sinq rand).positions i 0 =
      normalize s.normCenter s.normScale ((stepParticles s sinq rand).heads i) := by
  have hh : (stepParticles s sinq rand).heads i =
      ⟨(ATTRACTORS sinq s.key).initial.x + ((rand i).x - 1 / 2) * (1 / 10),
       (ATTRACTORS sinq s.key).initial.y + ((rand i).y - 1 / 2) * (1 / 10),
       (ATTRACTORS sinq s.key).initial.z + ((rand i).z - 1 / 2) * (1 / 10)⟩ := by
    show nextHead _ _ _ = _
    rw [nextHead, if_pos hdiv]
  refine ⟨?_, ?_, ?_, ?_⟩
  · rw [hh]
    rw [show (ATTRACTORS sinq s.key).initial.x + ((rand i).x - 1 / 2) * (1 / 10) -
        (ATTRACTORS sinq s.key).initial.x = ((rand i).x - 1 / 2) * (1 / 10) from by ring,
      abs_mul, abs_of_nonneg (show (0 : ℚ) ≤ 1 / 10 by norm_num)]
    have habs : |(rand i).x - 1 / 2| ≤ 1 / 2 :=
      abs_le.mpr ⟨by linarith [hr0.1], by linarith [hr0.2]⟩
    linarith
  · rw [hh]
    rw [show (ATTRACTORS sinq s.key).initial.y + ((rand i).y - 1 / 2) * (1 / 10) -
        (ATTRACTORS sinq s.key).initial.y = ((rand i).y - 1 / 2) * (1 / 10) from by ring,
      abs_mul, abs_of_nonneg (show (0 : ℚ) ≤ 1 / 10 by norm_num)]
    have habs : |(rand i).y - 1 / 2| ≤ 1 / 2 :=
      abs_le.mpr ⟨by linarith [hr1.1], by linarith [hr1.2]⟩
    linarith
  · rw [hh]
    rw [show (ATTRACTORS sinq s.key).initial.z + ((rand i).z - 1 / 2) * (1 / 10) -
        (ATTRACTORS sinq s.key).initial.z = ((rand i).z - 1 / 2) * (1 / 10) from by ring,
      abs_mul, abs_of_nonneg (show (0 : ℚ) ≤ 1 / 10 by norm_num)]
    have habs : |(rand i).z - 1 / 2| ≤ 1 / 2 :=
      abs_le.mpr ⟨by linarith [hr2.1], by linarith [hr2.2]⟩
    linarith
  · show Function.update (shiftDown (s.positions i) (TRAIL_LENGTH - 1)) 0
        (normalize s.normCenter s.normScale
          (nextHead (ATTRACTORS sinq s.key) (s.heads i) (rand i))) 0 =
      normalize s.normCenter s.normScale ((stepParticles s sinq rand).heads i)
    rw [Function.update_same, hh]
    exact congrArg (normalize s.normCenter s.normScale) (by rw [nextHead, if_pos hdiv])

theorem step_reseed_on_x_divergence_witness :
    |((stepParticles witState sinq0 randZero).heads 0).x -
        (ATTRACTORS sinq0 witState.key).initial.x| ≤ 1 / 20 ∧
    |((stepParticles witState sinq0 randZero).heads 0).y -
        (ATTRACTORS sinq0 witState.key).initial.y| ≤ 1 / 20 ∧
    |((stepParticles witState sinq0 randZero).heads 0).z -
        (ATTRACTORS sinq0 witState.key).initial.z| ≤ 1 / 20 ∧
    (stepParticles witState sinq0 randZero).positions 0 0 =
      normalize witState.normCenter witState.normScale
        ((stepParticles witState sinq0 randZero).heads 0) :=
  step_reseed_on_x_divergence witState sinq0 randZero 0
    (by norm_num [randZero]) (by norm_num [randZero]) (by norm_num [randZero])
    (by
      have hx : (rk4Step (witState.heads 0) (ATTRACTORS sinq0 witState.key)).x =
          -6380619924343 / 60 := by
        simp only [witState, ATTRACTORS, rk4Step, lorenzDerive]
        norm_num
      rw [hx, abs_of_nonpos (by norm_num)]
      norm_num)

end Vibe
